import Mathlib

/-!
Shallow embedding of the `interned` crate: the canonical interning store
(`INTERNED`), the memoization table (`MEMOIZED`), the type-erased `Static`
records of `src/_unsafe.rs`, the `Interned` conversions of `src/lib.rs`, and
`Memoized::from` of `src/memoized.rs`.

Modelling conventions:
- Machine values are erased to `Nat` bit patterns (scalar payloads), `List Nat`
  (slice payloads) and `String` (text payloads); `DefaultHasher` of a value of
  type `T` is an arbitrary function parameter `hashF`, and the 64-bit type id
  `TypeId::of::<T>()` is a `Nat` parameter `tid`.
- The leaked heap (`Box::leak` / `std::alloc::alloc`) is an association list
  from addresses to cell contents, with `nextAddr` the next fresh address;
  raw pointers are those addresses.
- The two thread-local tables are association lists `TypeId -> (hash ->
  Static)`; `HashMap::entry().or_insert*` becomes lookup-or-prepend.
- Panics of the shape accessors are `Option.none`; a Rust function that cannot
  panic and returns `x` becomes `some x`.
-/

/-- Contents of one leaked heap cell: the bits copied into store-owned memory
by `StaticValue::with_hash`, `StaticSlice::with_hash` and the string-like
constructors of `src/_unsafe.rs`. -/
inductive HeapData where
  | value (bits : Nat)
  | slice (elems : List Nat)
  | str (text : String)
  | osStr (text : String)
  | path (text : String)
deriving DecidableEq, Repr

/-- The type-erased record enum `Static` of `src/_unsafe.rs` (variants `Value`,
`Slice`, `Str`, `OsStr`, `Path`): each variant stores its heap pointer and the
cached 64-bit content hash. The slice length lives in the heap cell (the Rust
fat pointer). -/
inductive Static where
  | value (ptr : Nat) (hash : Nat)
  | slice (ptr : Nat) (hash : Nat)
  | str (ptr : Nat) (hash : Nat)
  | osStr (ptr : Nat) (hash : Nat)
  | path (ptr : Nat) (hash : Nat)
deriving DecidableEq, Repr

/-- `Static::as_ptr` (src/_unsafe.rs): the heap pointer of the record. -/
def Static.as_ptr : Static → Nat
  | .value p _ => p
  | .slice p _ => p
  | .str p _ => p
  | .osStr p _ => p
  | .path p _ => p

/-- `Static::hash_code` (src/_unsafe.rs): the cached hash of the record. -/
def Static.hash_code : Static → Nat
  | .value _ h => h
  | .slice _ h => h
  | .str _ h => h
  | .osStr _ h => h
  | .path _ h => h

/-- One per-type bucket of a store table: hash code -> record. -/
abbrev Bucket := List (Nat × Static)

/-- A store table: type id -> bucket (`HashMap<TypeId, HashMap<u64, Static>>`). -/
abbrev Table := List (Nat × Bucket)

/-- The thread-local execution context: the leaked heap plus the two
thread-local tables `INTERNED` and `MEMOIZED` of `src/lib.rs`. -/
structure St where
  heap : List (Nat × HeapData)
  nextAddr : Nat
  interned : Table
  memoized : Table
deriving DecidableEq, Repr

/-- The context at thread start: both tables empty, nothing leaked yet. -/
def St.empty : St := { heap := [], nextAddr := 0, interned := [], memoized := [] }

/-- Association-list lookup (first match), modelling `HashMap::get`. -/
def alookup {α : Type} (k : Nat) : List (Nat × α) → Option α
  | [] => none
  | p :: rest => if p.1 = k then some p.2 else alookup k rest

/-- Association-list update-or-append, modelling `HashMap::insert` /
`Entry::or_insert`. -/
def aset {α : Type} (k : Nat) (v : α) : List (Nat × α) → List (Nat × α)
  | [] => [(k, v)]
  | p :: rest => if p.1 = k then (k, v) :: rest else p :: aset k v rest

/-- The bucket of a type id (empty when the type has no bucket yet). -/
def getBucket (tid : Nat) (m : Table) : Bucket := (alookup tid m).getD []

/-- Store a bucket under a type id. -/
def setBucket (tid : Nat) (b : Bucket) (m : Table) : Table := aset tid b m

/-- The record a table maps the key (tid, h) to, if any. -/
def entryAt (m : Table) (tid h : Nat) : Option Static := alookup h (getBucket tid m)

/-- `StaticValue::with_hash` (src/_unsafe.rs lines 41-49): take the supplied
hash or compute it from the value; leak a fresh heap cell holding a copy of
the value's bits; return the record. -/
def StaticValue.with_hash (hashF : Nat → Nat) (bits : Nat) (h : Option Nat) (s : St) :
    Static × St :=
  let hc := h.getD (hashF bits)
  (Static.value s.nextAddr hc,
    { s with heap := (s.nextAddr, HeapData.value bits) :: s.heap, nextAddr := s.nextAddr + 1 })

/-- `StaticSlice::with_hash` (src/_unsafe.rs lines 119-133): take the supplied
hash or compute it; allocate fresh heap storage and copy the slice's bits into
it (`std::ptr::copy`), never aliasing the caller's buffer; return the record. -/
def StaticSlice.with_hash (hashF : List Nat → Nat) (elems : List Nat) (h : Option Nat)
    (s : St) : Static × St :=
  let hc := h.getD (hashF elems)
  (Static.slice s.nextAddr hc,
    { s with heap := (s.nextAddr, HeapData.slice elems) :: s.heap, nextAddr := s.nextAddr + 1 })

/-- `StaticStr::with_hash` (src/_unsafe.rs lines 198-208): leak a copy of the
string into a fresh heap cell. -/
def StaticStr.with_hash (hashF : String → Nat) (text : String) (h : Option Nat)
    (s : St) : Static × St :=
  let hc := h.getD (hashF text)
  (Static.str s.nextAddr hc,
    { s with heap := (s.nextAddr, HeapData.str text) :: s.heap, nextAddr := s.nextAddr + 1 })

/-- `Static::as_value` (src/_unsafe.rs lines 471-476): panics (`none`) unless
the record's stored kind is `Value`; otherwise dereferences the heap cell. -/
def Static.as_value (a : Static) (s : St) : Option Nat :=
  match a with
  | .value p _ =>
    match alookup p s.heap with
    | some (HeapData.value bits) => some bits
    | _ => none
  | _ => none

/-- `Static::as_slice` (src/_unsafe.rs lines 461-466): panics (`none`) unless
the record's stored kind is `Slice`; otherwise dereferences the heap cell. -/
def Static.as_slice (a : Static) (s : St) : Option (List Nat) :=
  match a with
  | .slice p _ =>
    match alookup p s.heap with
    | some (HeapData.slice elems) => some elems
    | _ => none
  | _ => none

/-- `Static::as_str` (src/_unsafe.rs lines 480-485): panics (`none`) unless the
record's stored kind is `Str`; otherwise dereferences the heap cell. -/
def Static.as_str (a : Static) (s : St) : Option String :=
  match a with
  | .str p _ =>
    match alookup p s.heap with
    | some (HeapData.str text) => some text
    | _ => none
  | _ => none

/-- `Static::_partial_eq` (src/_unsafe.rs lines 508-513): handle equality is
exactly equality of the two records' cached hash codes. -/
def Static._partial_eq (a b : Static) : Bool := a.hash_code == b.hash_code

/-- `Static::_hash` (src/_unsafe.rs lines 549-558): the data fed to the hasher
for a handle is the pair (type id, cached hash code) — the `Hash` impls of
`StaticValue` / `StaticSlice` / `StaticStr` hash only their stored `hash`
field. -/
def Static._hash (tid : Nat) (a : Static) : Nat × Nat := (tid, a.hash_code)

/-- Lexicographic slice comparison, as `<[T] as Ord>::cmp`. -/
def listCmp : List Nat → List Nat → Ordering
  | [], [] => Ordering.eq
  | [], _ :: _ => Ordering.lt
  | _ :: _, [] => Ordering.gt
  | a :: as, b :: bs =>
    match compare a b with
    | Ordering.eq => listCmp as bs
    | o => o

/-- `Static::_cmp` (src/_unsafe.rs lines 536-546): when both records have the
same storage kind the *payload contents* are dereferenced and compared; only
for mismatched kinds does it fall back to comparing `(type id, hash_code)`
tuples, whose type-id components are equal, i.e. to comparing hash codes.
Dereferencing a dangling pointer is `none` (UB in the source). -/
def Static._cmp (s : St) (tid : Nat) (a b : Static) : Option Ordering :=
  match a, b with
  | .value pa _, .value pb _ =>
    (match alookup pa s.heap, alookup pb s.heap with
     | some (HeapData.value va), some (HeapData.value vb) => some (compare va vb)
     | _, _ => none)
  | .slice pa _, .slice pb _ =>
    (match alookup pa s.heap, alookup pb s.heap with
     | some (HeapData.slice la), some (HeapData.slice lb) => some (listCmp la lb)
     | _, _ => none)
  | .str pa _, .str pb _ =>
    (match alookup pa s.heap, alookup pb s.heap with
     | some (HeapData.str ta), some (HeapData.str tb) => some (compare ta tb)
     | _, _ => none)
  | .osStr pa _, .osStr pb _ =>
    (match alookup pa s.heap, alookup pb s.heap with
     | some (HeapData.osStr ta), some (HeapData.osStr tb) => some (compare ta tb)
     | _, _ => none)
  | .path pa _, .path pb _ =>
    (match alookup pa s.heap, alookup pb s.heap with
     | some (HeapData.path ta), some (HeapData.path tb) => some (compare ta tb)
     | _, _ => none)
  | a, b =>
    have _ : Nat := tid
    some (compare a.hash_code b.hash_code)

/-- `impl From<Static> for Interned<T>` (src/lib.rs lines 485-501): ensure the
type's bucket exists, then `entry(hash_code).or_insert(value)` — on hit return
the existing record untouched, on miss insert the supplied record under its own
hash code. -/
def Interned.from_static (tid : Nat) (v : Static) (s : St) : Static × St :=
  let b := getBucket tid s.interned
  match alookup v.hash_code b with
  | some e => (e, { s with interned := setBucket tid b s.interned })
  | none => (v, { s with interned := setBucket tid ((v.hash_code, v) :: b) s.interned })

/-- `impl From<T> for Interned<T::Static>` (src/lib.rs lines 503-525) for a
`Value`-kind type: hash the value with `DefaultHasher` (`hashF`), then
`entry(hash).or_insert_with(|| value.to_static_with_hash(Some(hash)))` —
the record (and its heap cell) is created only on a miss. -/
def Interned.from_value (tid : Nat) (hashF : Nat → Nat) (bits : Nat) (s : St) :
    Static × St :=
  let h := hashF bits
  let b := getBucket tid s.interned
  match alookup h b with
  | some e => (e, { s with interned := setBucket tid b s.interned })
  | none =>
    let r := StaticValue.with_hash hashF bits (some h) s
    (r.1, { r.2 with interned := setBucket tid ((h, r.1) :: b) r.2.interned })

/-- `impl From<T> for Interned<T::Static>` for a `Slice`-kind type (same
lookup-or-create, `to_static_with_hash` dispatching to
`StaticSlice::with_hash`). -/
def Interned.from_slice (tid : Nat) (hashF : List Nat → Nat) (elems : List Nat) (s : St) :
    Static × St :=
  let h := hashF elems
  let b := getBucket tid s.interned
  match alookup h b with
  | some e => (e, { s with interned := setBucket tid b s.interned })
  | none =>
    let r := StaticSlice.with_hash hashF elems (some h) s
    (r.1, { r.2 with interned := setBucket tid ((h, r.1) :: b) r.2.interned })

/-- `impl From<T> for Interned<T::Static>` for `&str` (same lookup-or-create,
dispatching to `StaticStr::with_hash`). -/
def Interned.from_str (tid : Nat) (hashF : String → Nat) (text : String) (s : St) :
    Static × St :=
  let h := hashF text
  let b := getBucket tid s.interned
  match alookup h b with
  | some e => (e, { s with interned := setBucket tid b s.interned })
  | none =>
    let r := StaticStr.with_hash hashF text (some h) s
    (r.1, { r.2 with interned := setBucket tid ((h, r.1) :: b) r.2.interned })

/-- `num_interned` (src/lib.rs lines 766-769): `entry(type_id).or_default()`
inserts an empty bucket when absent, then returns the bucket's size. -/
def num_interned (tid : Nat) (s : St) : Nat × St :=
  let b := getBucket tid s.interned
  (b.length, { s with interned := setBucket tid b s.interned })

/-- `num_memoized` (src/lib.rs lines 761-764): same as `num_interned` on the
`MEMOIZED` table. -/
def num_memoized (tid : Nat) (s : St) : Nat × St :=
  let b := getBucket tid s.memoized
  (b.length, { s with memoized := setBucket tid b s.memoized })

/-- `Memoized::from` (src/memoized.rs lines 77-103): feed input, scope and the
type id into one hasher (`combine`), probe the `MEMOIZED` bucket for that key;
on hit take the stored record without running the generator; on miss run the
generator — modelled, per its `G: Fn(I) -> Interned<T>` signature and the
crate's intended use, as interning the generator's pure output `gen input`
through `From<T>` — and store the produced record under the memo key. Either
way, the obtained record is re-passed through `value_static.into()`, the
canonical store's lookup-or-insert, before being wrapped. The third component
counts how many times this call ran the generator. -/
def Memoized.memoize (tid : Nat) (hashF : Nat → Nat) (combine : Nat → Nat → Nat → Nat)
    (scopeH inputH : Nat) (gen : Nat → Nat) (input : Nat) (s : St) :
    Static × St × Nat :=
  let key := combine inputH scopeH tid
  let b := getBucket tid s.memoized
  match alookup key b with
  | some e =>
    let s1 := { s with memoized := setBucket tid b s.memoized }
    let r := Interned.from_static tid e s1
    (r.1, r.2, 0)
  | none =>
    let s1 := { s with memoized := setBucket tid b s.memoized }
    let g := Interned.from_value tid hashF (gen input) s1
    let s3 := { g.2 with memoized := setBucket tid ((key, g.1) :: b) g.2.memoized }
    let r := Interned.from_static tid g.1 s3
    (r.1, r.2, 1)

/-- One operation of the public surface, for reasoning about arbitrary
operation sequences. -/
inductive Op where
  | internV (tid : Nat) (hashF : Nat → Nat) (bits : Nat)
  | internSl (tid : Nat) (hashF : List Nat → Nat) (elems : List Nat)
  | internTxt (tid : Nat) (hashF : String → Nat) (text : String)
  | internRecord (tid : Nat) (v : Static)
  | memo (tid : Nat) (hashF : Nat → Nat) (combine : Nat → Nat → Nat → Nat)
      (scopeH inputH : Nat) (gen : Nat → Nat) (input : Nat)
  | countInterned (tid : Nat)
  | countMemoized (tid : Nat)

/-- The state reached after one operation. -/
def step (o : Op) (s : St) : St :=
  match o with
  | .internV tid hashF bits => (Interned.from_value tid hashF bits s).2
  | .internSl tid hashF elems => (Interned.from_slice tid hashF elems s).2
  | .internTxt tid hashF text => (Interned.from_str tid hashF text s).2
  | .internRecord tid v => (Interned.from_static tid v s).2
  | .memo tid hashF combine scopeH inputH gen input =>
    (Memoized.memoize tid hashF combine scopeH inputH gen input s).2.1
  | .countInterned tid => (num_interned tid s).2
  | .countMemoized tid => (num_memoized tid s).2

/-- The state reached after a sequence of operations. -/
def run (ops : List Op) (s : St) : St := ops.foldl (fun s o => step o s) s

/-- Well-formedness of one interned bucket: at most one record per hash (the
keys are distinct) and every record is stored under its own cached hash code. -/
def BucketWf (b : Bucket) : Prop :=
  (b.map Prod.fst).Nodup ∧ ∀ e ∈ b, Static.hash_code e.2 = e.1

/-- Well-formedness of the `INTERNED` table: every bucket is well-formed. -/
def TableWf (m : Table) : Prop := ∀ e ∈ m, BucketWf e.2

/-- Well-formedness of the leaked heap: every allocated address is below the
allocation cursor, so fresh allocations never collide with live cells. -/
def HeapWf (s : St) : Prop := ∀ e ∈ s.heap, e.1 < s.nextAddr

/-! Association-list lemmas. -/

theorem alookup_cons_self {α : Type} (k : Nat) (v : α) (l : List (Nat × α)) :
    alookup k ((k, v) :: l) = some v := by
  simp [alookup]

theorem alookup_cons_ne {α : Type} {k q : Nat} (v : α) (l : List (Nat × α))
    (h : k ≠ q) : alookup q ((k, v) :: l) = alookup q l := by
  simp [alookup, h]

theorem mem_of_alookup_eq_some {α : Type} {k : Nat} {v : α} {l : List (Nat × α)}
    (h : alookup k l = some v) : (k, v) ∈ l := by
  induction l with
  | nil => simp [alookup] at h
  | cons p rest ih =>
    rcases p with ⟨pk, pv⟩
    by_cases hk : pk = k
    · subst hk
      simp [alookup] at h
      simp [h]
    · simp [alookup, hk] at h
      exact List.mem_cons_of_mem _ (ih h)

theorem not_mem_keys_of_alookup_eq_none {α : Type} {k : Nat} {l : List (Nat × α)}
    (h : alookup k l = none) : k ∉ l.map Prod.fst := by
  induction l with
  | nil => simp
  | cons p rest ih =>
    by_cases hk : p.1 = k
    · simp [alookup, hk] at h
    · simp [alookup, hk] at h
      simp [ih h]
      omega

theorem alookup_aset_self {α : Type} (k : Nat) (v : α) (l : List (Nat × α)) :
    alookup k (aset k v l) = some v := by
  induction l with
  | nil => simp [aset, alookup]
  | cons p rest ih =>
    by_cases hk : p.1 = k
    · simp [aset, hk, alookup]
    · simp [aset, hk, alookup, ih]

theorem alookup_aset_ne {α : Type} {k q : Nat} (v : α) (l : List (Nat × α))
    (h : q ≠ k) : alookup q (aset k v l) = alookup q l := by
  induction l with
  | nil => simp [aset, alookup, Ne.symm h]
  | cons p rest ih =>
    by_cases hk : p.1 = k
    · subst hk
      simp [aset, alookup, Ne.symm h, ih]
    · simp [aset, hk, alookup, ih]

theorem mem_aset {α : Type} {e : Nat × α} {k : Nat} {v : α} {l : List (Nat × α)}
    (h : e ∈ aset k v l) : e = (k, v) ∨ e ∈ l := by
  induction l with
  | nil => simpa [aset] using h
  | cons p rest ih =>
    by_cases hk : p.1 = k
    · simp [aset, hk] at h
      rcases h with h | h
      · exact Or.inl h
      · exact Or.inr (List.mem_cons_of_mem _ h)
    · simp [aset, hk] at h
      rcases h with h | h
      · exact Or.inr (by simp [h])
      · rcases ih h with h | h
        · exact Or.inl h
        · exact Or.inr (List.mem_cons_of_mem _ h)

/-! Bucket and table lemmas. -/

theorem getBucket_set_self (tid : Nat) (b : Bucket) (m : Table) :
    getBucket tid (setBucket tid b m) = b := by
  simp [getBucket, setBucket, alookup_aset_self]

theorem getBucket_set_ne {t q : Nat} (b : Bucket) (m : Table) (h : q ≠ t) :
    getBucket q (setBucket t b m) = getBucket q m := by
  simp [getBucket, setBucket, alookup_aset_ne b m h]

theorem entryAt_set_self (tid : Nat) (b : Bucket) (m : Table) (h : Nat) :
    entryAt (setBucket tid b m) tid h = alookup h b := by
  simp [entryAt, getBucket_set_self]

theorem entryAt_set_ne {t q : Nat} (b : Bucket) (m : Table) (h : Nat) (hq : q ≠ t) :
    entryAt (setBucket t b m) q h = entryAt m q h := by
  simp [entryAt, getBucket_set_ne b m hq]

theorem getBucket_ensure (t q : Nat) (m : Table) :
    getBucket q (setBucket t (getBucket t m) m) = getBucket q m := by
  by_cases hq : q = t
  · subst hq
    exact getBucket_set_self _ _ _
  · exact getBucket_set_ne _ _ hq

theorem entryAt_ensure (t q : Nat) (m : Table) (h : Nat) :
    entryAt (setBucket t (getBucket t m) m) q h = entryAt m q h := by
  simp [entryAt, getBucket_ensure]

theorem entryAt_insert_self (t : Nat) (hk : Nat) (v : Static) (b : Bucket) (m : Table) :
    entryAt (setBucket t ((hk, v) :: b) m) t hk = some v := by
  simp [entryAt_set_self, alookup_cons_self]

theorem entryAt_insert_preserve {m : Table} {t q hk hq : Nat} {v w : Static}
    (hold : entryAt m q hq = some w) (hfresh : entryAt m t hk = none) :
    entryAt (setBucket t ((hk, v) :: getBucket t m) m) q hq = some w := by
  by_cases ht : q = t
  · subst ht
    by_cases hh : hk = hq
    · subst hh
      rw [hfresh] at hold
      exact absurd hold (by simp)
    · rw [entryAt_set_self, alookup_cons_ne _ _ hh]
      exact hold
  · rw [entryAt_set_ne _ _ _ ht]
    exact hold

/-! Well-formedness lemmas. -/

theorem bucketWf_nil : BucketWf [] := by
  constructor
  · simp
  · intro e he
    simp at he

theorem bucketWf_getBucket {m : Table} (hm : TableWf m) (tid : Nat) :
    BucketWf (getBucket tid m) := by
  unfold getBucket
  cases hb : alookup tid m with
  | none => simpa using bucketWf_nil
  | some b =>
    simp only [Option.getD_some]
    exact hm (tid, b) (mem_of_alookup_eq_some hb)

theorem tableWf_set {m : Table} {b : Bucket} (hm : TableWf m) (hb : BucketWf b)
    (tid : Nat) : TableWf (setBucket tid b m) := by
  intro e he
  rcases mem_aset he with h | h
  · rw [h]
    exact hb
  · exact hm e h

theorem bucketWf_lookup {b : Bucket} {h : Nat} {v : Static} (hb : BucketWf b)
    (hl : alookup h b = some v) : v.hash_code = h :=
  hb.2 (h, v) (mem_of_alookup_eq_some hl)

theorem tableWf_entryAt {m : Table} {tid h : Nat} {v : Static} (hm : TableWf m)
    (he : entryAt m tid h = some v) : v.hash_code = h :=
  bucketWf_lookup (bucketWf_getBucket hm tid) he

theorem bucketWf_insert {b : Bucket} {h : Nat} {v : Static} (hb : BucketWf b)
    (hfresh : alookup h b = none) (hv : v.hash_code = h) :
    BucketWf ((h, v) :: b) := by
  constructor
  · simpa [hb.1] using not_mem_keys_of_alookup_eq_none hfresh
  · intro e he
    rcases List.mem_cons.mp he with hh | hh
    · rw [hh]
      exact hv
    · exact hb.2 e hh

theorem tableWf_ensure {m : Table} (hm : TableWf m) (tid : Nat) :
    TableWf (setBucket tid (getBucket tid m) m) :=
  tableWf_set hm (bucketWf_getBucket hm tid) tid

theorem tableWf_insert {m : Table} {tid h : Nat} {v : Static} (hm : TableWf m)
    (hfresh : entryAt m tid h = none) (hv : v.hash_code = h) :
    TableWf (setBucket tid ((h, v) :: getBucket tid m) m) :=
  tableWf_set hm (bucketWf_insert (bucketWf_getBucket hm tid) hfresh hv) tid

/-! Hit/miss characterizations of the store operations. -/

theorem from_static_hit {tid : Nat} {v e : Static} {s : St}
    (h : entryAt s.interned tid v.hash_code = some e) :
    Interned.from_static tid v s =
      (e, { s with interned := setBucket tid (getBucket tid s.interned) s.interned }) := by
  have h' : alookup v.hash_code (getBucket tid s.interned) = some e := h
  simp only [Interned.from_static, h']

theorem from_static_miss {tid : Nat} {v : Static} {s : St}
    (h : entryAt s.interned tid v.hash_code = none) :
    Interned.from_static tid v s =
      (v, { s with interned := setBucket tid ((v.hash_code, v) :: getBucket tid s.interned) s.interned }) := by
  have h' : alookup v.hash_code (getBucket tid s.interned) = none := h
  simp only [Interned.from_static, h']

theorem from_value_hit {tid : Nat} {hashF : Nat → Nat} {bits : Nat} {e : Static} {s : St}
    (h : entryAt s.interned tid (hashF bits) = some e) :
    Interned.from_value tid hashF bits s =
      (e, { s with interned := setBucket tid (getBucket tid s.interned) s.interned }) := by
  have h' : alookup (hashF bits) (getBucket tid s.interned) = some e := h
  simp only [Interned.from_value, h']

theorem from_value_miss {tid : Nat} {hashF : Nat → Nat} {bits : Nat} {s : St}
    (h : entryAt s.interned tid (hashF bits) = none) :
    Interned.from_value tid hashF bits s =
      (Static.value s.nextAddr (hashF bits),
        { heap := (s.nextAddr, HeapData.value bits) :: s.heap,
          nextAddr := s.nextAddr + 1,
          interned := setBucket tid ((hashF bits, Static.value s.nextAddr (hashF bits)) :: getBucket tid s.interned) s.interned,
          memoized := s.memoized }) := by
  have h' : alookup (hashF bits) (getBucket tid s.interned) = none := h
  simp only [Interned.from_value, StaticValue.with_hash, h', Option.getD_some]

theorem from_slice_hit {tid : Nat} {hashF : List Nat → Nat} {elems : List Nat} {e : Static}
    {s : St} (h : entryAt s.interned tid (hashF elems) = some e) :
    Interned.from_slice tid hashF elems s =
      (e, { s with interned := setBucket tid (getBucket tid s.interned) s.interned }) := by
  have h' : alookup (hashF elems) (getBucket tid s.interned) = some e := h
  simp only [Interned.from_slice, h']

theorem from_slice_miss {tid : Nat} {hashF : List Nat → Nat} {elems : List Nat} {s : St}
    (h : entryAt s.interned tid (hashF elems) = none) :
    Interned.from_slice tid hashF elems s =
      (Static.slice s.nextAddr (hashF elems),
        { heap := (s.nextAddr, HeapData.slice elems) :: s.heap,
          nextAddr := s.nextAddr + 1,
          interned := setBucket tid ((hashF elems, Static.slice s.nextAddr (hashF elems)) :: getBucket tid s.interned) s.interned,
          memoized := s.memoized }) := by
  have h' : alookup (hashF elems) (getBucket tid s.interned) = none := h
  simp only [Interned.from_slice, StaticSlice.with_hash, h', Option.getD_some]

theorem from_str_hit {tid : Nat} {hashF : String → Nat} {text : String} {e : Static}
    {s : St} (h : entryAt s.interned tid (hashF text) = some e) :
    Interned.from_str tid hashF text s =
      (e, { s with interned := setBucket tid (getBucket tid s.interned) s.interned }) := by
  have h' : alookup (hashF text) (getBucket tid s.interned) = some e := h
  simp only [Interned.from_str, h']

theorem from_str_miss {tid : Nat} {hashF : String → Nat} {text : String} {s : St}
    (h : entryAt s.interned tid (hashF text) = none) :
    Interned.from_str tid hashF text s =
      (Static.str s.nextAddr (hashF text),
        { heap := (s.nextAddr, HeapData.str text) :: s.heap,
          nextAddr := s.nextAddr + 1,
          interned := setBucket tid ((hashF text, Static.str s.nextAddr (hashF text)) :: getBucket tid s.interned) s.interned,
          memoized := s.memoized }) := by
  have h' : alookup (hashF text) (getBucket tid s.interned) = none := h
  simp only [Interned.from_str, StaticStr.with_hash, h', Option.getD_some]

theorem memoize_hit {tid : Nat} {hashF : Nat → Nat} {combine : Nat → Nat → Nat → Nat}
    {scopeH inputH : Nat} {gen : Nat → Nat} {input : Nat} {e : Static} {s : St}
    (h : entryAt s.memoized tid (combine inputH scopeH tid) = some e) :
    Memoized.memoize tid hashF combine scopeH inputH gen input s =
      ((Interned.from_static tid e { s with memoized := setBucket tid (getBucket tid s.memoized) s.memoized }).1,
       (Interned.from_static tid e { s with memoized := setBucket tid (getBucket tid s.memoized) s.memoized }).2,
       0) := by
  have h' : alookup (combine inputH scopeH tid) (getBucket tid s.memoized) = some e := h
  simp only [Memoized.memoize, h']

theorem memoize_miss {tid : Nat} {hashF : Nat → Nat} {combine : Nat → Nat → Nat → Nat}
    {scopeH inputH : Nat} {gen : Nat → Nat} {input : Nat} {s : St}
    (h : entryAt s.memoized tid (combine inputH scopeH tid) = none) :
    Memoized.memoize tid hashF combine scopeH inputH gen input s =
      (let s1 : St := { s with memoized := setBucket tid (getBucket tid s.memoized) s.memoized }
       let g := Interned.from_value tid hashF (gen input) s1
       let s3 : St := { g.2 with memoized := setBucket tid ((combine inputH scopeH tid, g.1) :: getBucket tid s.memoized) g.2.memoized }
       let r := Interned.from_static tid g.1 s3
       (r.1, r.2, 1)) := by
  have h' : alookup (combine inputH scopeH tid) (getBucket tid s.memoized) = none := h
  simp only [Memoized.memoize, h']

/-! Table evolution: the absent-to-present-once, never-removed discipline. -/

/-- One table evolves into another: every present entry persists unchanged and
no bucket shrinks. -/
def TStep (m m2 : Table) : Prop :=
  (∀ t h v, entryAt m t h = some v → entryAt m2 t h = some v) ∧
  (∀ t, (getBucket t m).length ≤ (getBucket t m2).length)

theorem tstep_refl (m : Table) : TStep m m :=
  ⟨fun _ _ _ h => h, fun _ => Nat.le_refl _⟩

theorem tstep_of_eq {m m2 : Table} (h : m2 = m) : TStep m m2 := by
  rw [h]
  exact tstep_refl m

theorem tstep_trans {m m2 m3 : Table} (h1 : TStep m m2) (h2 : TStep m2 m3) :
    TStep m m3 :=
  ⟨fun t h v hv => h2.1 t h v (h1.1 t h v hv),
   fun t => Nat.le_trans (h1.2 t) (h2.2 t)⟩

theorem tstep_ensure (t : Nat) (m : Table) :
    TStep m (setBucket t (getBucket t m) m) := by
  constructor
  · intro q h v hv
    rw [entryAt_ensure]
    exact hv
  · intro q
    rw [getBucket_ensure]

theorem tstep_insert {m : Table} {t h : Nat} (v : Static)
    (hfresh : entryAt m t h = none) :
    TStep m (setBucket t ((h, v) :: getBucket t m) m) := by
  constructor
  · intro q hq w hw
    exact entryAt_insert_preserve hw hfresh
  · intro q
    by_cases hqt : q = t
    · subst hqt
      rw [getBucket_set_self]
      simp
    · rw [getBucket_set_ne _ _ hqt]

/-! Per-operation evolution lemmas. -/

theorem from_static_evol (tid : Nat) (v : Static) (s : St) :
    TStep s.interned (Interned.from_static tid v s).2.interned ∧
    (Interned.from_static tid v s).2.memoized = s.memoized ∧
    (Interned.from_static tid v s).2.heap = s.heap ∧
    (Interned.from_static tid v s).2.nextAddr = s.nextAddr := by
  cases hm : entryAt s.interned tid v.hash_code with
  | some e =>
    rw [from_static_hit hm]
    exact ⟨tstep_ensure _ _, rfl, rfl, rfl⟩
  | none =>
    rw [from_static_miss hm]
    exact ⟨tstep_insert v hm, rfl, rfl, rfl⟩

theorem from_value_evol (tid : Nat) (hashF : Nat → Nat) (bits : Nat) (s : St) :
    TStep s.interned (Interned.from_value tid hashF bits s).2.interned ∧
    (Interned.from_value tid hashF bits s).2.memoized = s.memoized := by
  cases hm : entryAt s.interned tid (hashF bits) with
  | some e =>
    rw [from_value_hit hm]
    exact ⟨tstep_ensure _ _, rfl⟩
  | none =>
    rw [from_value_miss hm]
    exact ⟨tstep_insert _ hm, rfl⟩

theorem from_slice_evol (tid : Nat) (hashF : List Nat → Nat) (elems : List Nat) (s : St) :
    TStep s.interned (Interned.from_slice tid hashF elems s).2.interned ∧
    (Interned.from_slice tid hashF elems s).2.memoized = s.memoized := by
  cases hm : entryAt s.interned tid (hashF elems) with
  | some e =>
    rw [from_slice_hit hm]
    exact ⟨tstep_ensure _ _, rfl⟩
  | none =>
    rw [from_slice_miss hm]
    exact ⟨tstep_insert _ hm, rfl⟩

theorem from_str_evol (tid : Nat) (hashF : String → Nat) (text : String) (s : St) :
    TStep s.interned (Interned.from_str tid hashF text s).2.interned ∧
    (Interned.from_str tid hashF text s).2.memoized = s.memoized := by
  cases hm : entryAt s.interned tid (hashF text) with
  | some e =>
    rw [from_str_hit hm]
    exact ⟨tstep_ensure _ _, rfl⟩
  | none =>
    rw [from_str_miss hm]
    exact ⟨tstep_insert _ hm, rfl⟩

theorem memoize_miss_state {tid : Nat} {hashF : Nat → Nat} {combine : Nat → Nat → Nat → Nat}
    {scopeH inputH : Nat} {gen : Nat → Nat} {input : Nat} {s : St}
    (h : entryAt s.memoized tid (combine inputH scopeH tid) = none) :
    (Memoized.memoize tid hashF combine scopeH inputH gen input s).2.1 =
      (Interned.from_static tid
        (Interned.from_value tid hashF (gen input)
          { s with memoized := setBucket tid (getBucket tid s.memoized) s.memoized }).1
        { (Interned.from_value tid hashF (gen input)
            { s with memoized := setBucket tid (getBucket tid s.memoized) s.memoized }).2 with
          memoized := setBucket tid
            ((combine inputH scopeH tid,
              (Interned.from_value tid hashF (gen input)
                { s with memoized := setBucket tid (getBucket tid s.memoized) s.memoized }).1)
              :: getBucket tid s.memoized)
            (Interned.from_value tid hashF (gen input)
              { s with memoized := setBucket tid (getBucket tid s.memoized) s.memoized }).2.memoized }).2 := by
  have h' : alookup (combine inputH scopeH tid) (getBucket tid s.memoized) = none := h
  simp only [Memoized.memoize, h']

theorem memoize_evol (tid : Nat) (hashF : Nat → Nat) (combine : Nat → Nat → Nat → Nat)
    (scopeH inputH : Nat) (gen : Nat → Nat) (input : Nat) (s : St) :
    TStep s.interned (Memoized.memoize tid hashF combine scopeH inputH gen input s).2.1.interned ∧
    TStep s.memoized (Memoized.memoize tid hashF combine scopeH inputH gen input s).2.1.memoized := by
  cases hm : entryAt s.memoized tid (combine inputH scopeH tid) with
  | some e =>
    rw [memoize_hit hm]
    have h1 := from_static_evol tid e
      { s with memoized := setBucket tid (getBucket tid s.memoized) s.memoized }
    refine ⟨h1.1, ?_⟩
    rw [h1.2.1]
    exact tstep_ensure _ _
  | none =>
    rw [memoize_miss_state hm]
    have hg := from_value_evol tid hashF (gen input)
      { s with memoized := setBucket tid (getBucket tid s.memoized) s.memoized }
    have hr := from_static_evol tid
      (Interned.from_value tid hashF (gen input)
        { s with memoized := setBucket tid (getBucket tid s.memoized) s.memoized }).1
      { (Interned.from_value tid hashF (gen input)
          { s with memoized := setBucket tid (getBucket tid s.memoized) s.memoized }).2 with
        memoized := setBucket tid
          ((combine inputH scopeH tid,
            (Interned.from_value tid hashF (gen input)
              { s with memoized := setBucket tid (getBucket tid s.memoized) s.memoized }).1)
            :: getBucket tid s.memoized)
          (Interned.from_value tid hashF (gen input)
            { s with memoized := setBucket tid (getBucket tid s.memoized) s.memoized }).2.memoized }
    constructor
    · exact tstep_trans hg.1 hr.1
    · have hstat : (Interned.from_static tid
          (Interned.from_value tid hashF (gen input)
            { s with memoized := setBucket tid (getBucket tid s.memoized) s.memoized }).1
          { (Interned.from_value tid hashF (gen input)
              { s with memoized := setBucket tid (getBucket tid s.memoized) s.memoized }).2 with
            memoized := setBucket tid
              ((combine inputH scopeH tid,
                (Interned.from_value tid hashF (gen input)
                  { s with memoized := setBucket tid (getBucket tid s.memoized) s.memoized }).1)
                :: getBucket tid s.memoized)
              (Interned.from_value tid hashF (gen input)
                { s with memoized := setBucket tid (getBucket tid s.memoized) s.memoized }).2.memoized }).2.memoized
          = setBucket tid
              ((combine inputH scopeH tid,
                (Interned.from_value tid hashF (gen input)
                  { s with memoized := setBucket tid (getBucket tid s.memoized) s.memoized }).1)
                :: getBucket tid s.memoized)
              (Interned.from_value tid hashF (gen input)
                { s with memoized := setBucket tid (getBucket tid s.memoized) s.memoized }).2.memoized :=
        hr.2.1
      rw [hstat]
      have hmem2 : (Interned.from_value tid hashF (gen input)
          { s with memoized := setBucket tid (getBucket tid s.memoized) s.memoized }).2.memoized
          = setBucket tid (getBucket tid s.memoized) s.memoized := hg.2
      rw [hmem2]
      have hfresh : entryAt (setBucket tid (getBucket tid s.memoized) s.memoized) tid
          (combine inputH scopeH tid) = none := by
        rw [entryAt_ensure]
        exact hm
      have hins := tstep_insert
        (Interned.from_value tid hashF (gen input)
          { s with memoized := setBucket tid (getBucket tid s.memoized) s.memoized }).1 hfresh
      rw [getBucket_set_self] at hins
      exact tstep_trans (tstep_ensure tid s.memoized) hins

/-! Heap persistence: store-owned cells are never freed or overwritten. -/

/-- Every readable heap cell of the first state is still readable, with the
same contents, in the second. -/
def HPres (s s2 : St) : Prop :=
  ∀ p c, alookup p s.heap = some c → alookup p s2.heap = some c

theorem hpres_refl (s : St) : HPres s s := fun _ _ h => h

theorem hpres_trans {s s2 s3 : St} (h1 : HPres s s2) (h2 : HPres s2 s3) : HPres s s3 :=
  fun p c h => h2 p c (h1 p c h)

theorem hpres_of_heap_eq {s s2 : St} (h : s2.heap = s.heap) : HPres s s2 := by
  intro p c hp
  rw [h]
  exact hp

theorem heapWf_of_fields {s s2 : St} (h2 : s2.heap = s.heap) (h3 : s2.nextAddr = s.nextAddr)
    (hwf : HeapWf s) : HeapWf s2 := by
  intro e he
  rw [h2] at he
  rw [h3]
  exact hwf e he

theorem alookup_cons_fresh {heap : List (Nat × HeapData)} {n p : Nat} {c : HeapData}
    (d : HeapData) (hwf : ∀ e ∈ heap, e.1 < n) (h : alookup p heap = some c) :
    alookup p ((n, d) :: heap) = some c := by
  have hp : p < n := hwf _ (mem_of_alookup_eq_some h)
  rw [alookup_cons_ne _ _ (by omega)]
  exact h

theorem heapWf_cons {heap : List (Nat × HeapData)} {n : Nat} (d : HeapData)
    (hwf : ∀ e ∈ heap, e.1 < n) : ∀ e ∈ (n, d) :: heap, e.1 < n + 1 := by
  intro e he
  rcases List.mem_cons.mp he with h | h
  · rw [h]
    omega
  · have := hwf e h
    omega

theorem from_value_heap (tid : Nat) (hashF : Nat → Nat) (bits : Nat) (s : St)
    (hwf : HeapWf s) :
    HPres s (Interned.from_value tid hashF bits s).2 ∧
    HeapWf (Interned.from_value tid hashF bits s).2 := by
  cases hm : entryAt s.interned tid (hashF bits) with
  | some e =>
    rw [from_value_hit hm]
    exact ⟨hpres_refl s, hwf⟩
  | none =>
    rw [from_value_miss hm]
    constructor
    · intro p c hp
      exact alookup_cons_fresh _ hwf hp
    · intro e he
      exact heapWf_cons _ hwf e he

theorem from_slice_heap (tid : Nat) (hashF : List Nat → Nat) (elems : List Nat) (s : St)
    (hwf : HeapWf s) :
    HPres s (Interned.from_slice tid hashF elems s).2 ∧
    HeapWf (Interned.from_slice tid hashF elems s).2 := by
  cases hm : entryAt s.interned tid (hashF elems) with
  | some e =>
    rw [from_slice_hit hm]
    exact ⟨hpres_refl s, hwf⟩
  | none =>
    rw [from_slice_miss hm]
    constructor
    · intro p c hp
      exact alookup_cons_fresh _ hwf hp
    · intro e he
      exact heapWf_cons _ hwf e he

theorem from_str_heap (tid : Nat) (hashF : String → Nat) (text : String) (s : St)
    (hwf : HeapWf s) :
    HPres s (Interned.from_str tid hashF text s).2 ∧
    HeapWf (Interned.from_str tid hashF text s).2 := by
  cases hm : entryAt s.interned tid (hashF text) with
  | some e =>
    rw [from_str_hit hm]
    exact ⟨hpres_refl s, hwf⟩
  | none =>
    rw [from_str_miss hm]
    constructor
    · intro p c hp
      exact alookup_cons_fresh _ hwf hp
    · intro e he
      exact heapWf_cons _ hwf e he

theorem from_static_heap (tid : Nat) (v : Static) (s : St) (hwf : HeapWf s) :
    HPres s (Interned.from_static tid v s).2 ∧
    HeapWf (Interned.from_static tid v s).2 := by
  have h := from_static_evol tid v s
  exact ⟨hpres_of_heap_eq h.2.2.1, heapWf_of_fields h.2.2.1 h.2.2.2 hwf⟩

theorem memoize_heap (tid : Nat) (hashF : Nat → Nat) (combine : Nat → Nat → Nat → Nat)
    (scopeH inputH : Nat) (gen : Nat → Nat) (input : Nat) (s : St) (hwf : HeapWf s) :
    HPres s (Memoized.memoize tid hashF combine scopeH inputH gen input s).2.1 ∧
    HeapWf (Memoized.memoize tid hashF combine scopeH inputH gen input s).2.1 := by
  cases hm : entryAt s.memoized tid (combine inputH scopeH tid) with
  | some e =>
    rw [memoize_hit hm]
    exact from_static_heap tid e
      { s with memoized := setBucket tid (getBucket tid s.memoized) s.memoized } hwf
  | none =>
    rw [memoize_miss_state hm]
    have hg := from_value_heap tid hashF (gen input)
      { s with memoized := setBucket tid (getBucket tid s.memoized) s.memoized } hwf
    have hr := from_static_heap tid
      (Interned.from_value tid hashF (gen input)
        { s with memoized := setBucket tid (getBucket tid s.memoized) s.memoized }).1
      { (Interned.from_value tid hashF (gen input)
          { s with memoized := setBucket tid (getBucket tid s.memoized) s.memoized }).2 with
        memoized := setBucket tid
          ((combine inputH scopeH tid,
            (Interned.from_value tid hashF (gen input)
              { s with memoized := setBucket tid (getBucket tid s.memoized) s.memoized }).1)
            :: getBucket tid s.memoized)
          (Interned.from_value tid hashF (gen input)
            { s with memoized := setBucket tid (getBucket tid s.memoized) s.memoized }).2.memoized }
      hg.2
    exact ⟨hpres_trans hg.1 hr.1, hr.2⟩

/-! TableWf preservation per operation. -/

theorem from_static_wf (tid : Nat) (v : Static) (s : St) (hwf : TableWf s.interned) :
    TableWf (Interned.from_static tid v s).2.interned := by
  cases hm : entryAt s.interned tid v.hash_code with
  | some e =>
    rw [from_static_hit hm]
    exact tableWf_ensure hwf tid
  | none =>
    rw [from_static_miss hm]
    exact tableWf_insert hwf hm rfl

theorem from_value_wf (tid : Nat) (hashF : Nat → Nat) (bits : Nat) (s : St)
    (hwf : TableWf s.interned) :
    TableWf (Interned.from_value tid hashF bits s).2.interned := by
  cases hm : entryAt s.interned tid (hashF bits) with
  | some e =>
    rw [from_value_hit hm]
    exact tableWf_ensure hwf tid
  | none =>
    rw [from_value_miss hm]
    exact tableWf_insert hwf hm rfl

theorem from_slice_wf (tid : Nat) (hashF : List Nat → Nat) (elems : List Nat) (s : St)
    (hwf : TableWf s.interned) :
    TableWf (Interned.from_slice tid hashF elems s).2.interned := by
  cases hm : entryAt s.interned tid (hashF elems) with
  | some e =>
    rw [from_slice_hit hm]
    exact tableWf_ensure hwf tid
  | none =>
    rw [from_slice_miss hm]
    exact tableWf_insert hwf hm rfl

theorem from_str_wf (tid : Nat) (hashF : String → Nat) (text : String) (s : St)
    (hwf : TableWf s.interned) :
    TableWf (Interned.from_str tid hashF text s).2.interned := by
  cases hm : entryAt s.interned tid (hashF text) with
  | some e =>
    rw [from_str_hit hm]
    exact tableWf_ensure hwf tid
  | none =>
    rw [from_str_miss hm]
    exact tableWf_insert hwf hm rfl

theorem memoize_wf (tid : Nat) (hashF : Nat → Nat) (combine : Nat → Nat → Nat → Nat)
    (scopeH inputH : Nat) (gen : Nat → Nat) (input : Nat) (s : St)
    (hwf : TableWf s.interned) :
    TableWf (Memoized.memoize tid hashF combine scopeH inputH gen input s).2.1.interned := by
  cases hm : entryAt s.memoized tid (combine inputH scopeH tid) with
  | some e =>
    rw [memoize_hit hm]
    exact from_static_wf tid e
      { s with memoized := setBucket tid (getBucket tid s.memoized) s.memoized } hwf
  | none =>
    rw [memoize_miss_state hm]
    exact from_static_wf _ _ _
      (from_value_wf tid hashF (gen input)
        { s with memoized := setBucket tid (getBucket tid s.memoized) s.memoized } hwf)

/-! Step- and run-level evolution. -/

theorem step_evol (o : Op) (s : St) :
    TStep s.interned (step o s).interned ∧ TStep s.memoized (step o s).memoized := by
  cases o with
  | internV tid hashF bits =>
    have h := from_value_evol tid hashF bits s
    exact ⟨h.1, tstep_of_eq h.2⟩
  | internSl tid hashF elems =>
    have h := from_slice_evol tid hashF elems s
    exact ⟨h.1, tstep_of_eq h.2⟩
  | internTxt tid hashF text =>
    have h := from_str_evol tid hashF text s
    exact ⟨h.1, tstep_of_eq h.2⟩
  | internRecord tid v =>
    have h := from_static_evol tid v s
    exact ⟨h.1, tstep_of_eq h.2.1⟩
  | memo tid hashF combine scopeH inputH gen input =>
    exact memoize_evol tid hashF combine scopeH inputH gen input s
  | countInterned tid =>
    exact ⟨tstep_ensure tid s.interned, tstep_refl s.memoized⟩
  | countMemoized tid =>
    exact ⟨tstep_refl s.interned, tstep_ensure tid s.memoized⟩

theorem step_wf (o : Op) (s : St) (hwf : TableWf s.interned) :
    TableWf (step o s).interned := by
  cases o with
  | internV tid hashF bits => exact from_value_wf tid hashF bits s hwf
  | internSl tid hashF elems => exact from_slice_wf tid hashF elems s hwf
  | internTxt tid hashF text => exact from_str_wf tid hashF text s hwf
  | internRecord tid v => exact from_static_wf tid v s hwf
  | memo tid hashF combine scopeH inputH gen input =>
    exact memoize_wf tid hashF combine scopeH inputH gen input s hwf
  | countInterned tid => exact tableWf_ensure hwf tid
  | countMemoized tid => exact hwf

theorem step_heap (o : Op) (s : St) (hwf : HeapWf s) :
    HPres s (step o s) ∧ HeapWf (step o s) := by
  cases o with
  | internV tid hashF bits => exact from_value_heap tid hashF bits s hwf
  | internSl tid hashF elems => exact from_slice_heap tid hashF elems s hwf
  | internTxt tid hashF text => exact from_str_heap tid hashF text s hwf
  | internRecord tid v => exact from_static_heap tid v s hwf
  | memo tid hashF combine scopeH inputH gen input =>
    exact memoize_heap tid hashF combine scopeH inputH gen input s hwf
  | countInterned tid => exact ⟨hpres_refl s, hwf⟩
  | countMemoized tid => exact ⟨hpres_refl s, hwf⟩

theorem run_cons (o : Op) (ops : List Op) (s : St) :
    run (o :: ops) s = run ops (step o s) := rfl

theorem run_evol (ops : List Op) (s : St) :
    TStep s.interned (run ops s).interned ∧ TStep s.memoized (run ops s).memoized := by
  induction ops generalizing s with
  | nil => exact ⟨tstep_refl _, tstep_refl _⟩
  | cons o rest ih =>
    rw [run_cons]
    have h1 := step_evol o s
    have h2 := ih (step o s)
    exact ⟨tstep_trans h1.1 h2.1, tstep_trans h1.2 h2.2⟩

theorem run_wf (ops : List Op) (s : St) (hwf : TableWf s.interned) :
    TableWf (run ops s).interned := by
  induction ops generalizing s with
  | nil => exact hwf
  | cons o rest ih =>
    rw [run_cons]
    exact ih (step o s) (step_wf o s hwf)

theorem run_heap (ops : List Op) (s : St) (hwf : HeapWf s) :
    HPres s (run ops s) ∧ HeapWf (run ops s) := by
  induction ops generalizing s with
  | nil => exact ⟨hpres_refl s, hwf⟩
  | cons o rest ih =>
    rw [run_cons]
    have h1 := step_heap o s hwf
    have h2 := ih (step o s) h1.2
    exact ⟨hpres_trans h1.1 h2.1, h2.2⟩

/-! Canonicality of records returned by the store. -/

theorem from_static_canonical (tid : Nat) (v : Static) (s : St)
    (hwf : TableWf s.interned) :
    entryAt (Interned.from_static tid v s).2.interned tid
        (Static.hash_code (Interned.from_static tid v s).1)
      = some (Interned.from_static tid v s).1 := by
  cases hm : entryAt s.interned tid v.hash_code with
  | some e =>
    rw [from_static_hit hm]
    have hc : Static.hash_code e = Static.hash_code v := tableWf_entryAt hwf hm
    show entryAt (setBucket tid (getBucket tid s.interned) s.interned) tid
        (Static.hash_code e) = some e
    rw [hc, entryAt_ensure]
    exact hm
  | none =>
    rw [from_static_miss hm]
    exact entryAt_insert_self tid (Static.hash_code v) v (getBucket tid s.interned) s.interned

theorem from_value_canonical (tid : Nat) (hashF : Nat → Nat) (bits : Nat) (s : St)
    (hwf : TableWf s.interned) :
    entryAt (Interned.from_value tid hashF bits s).2.interned tid (hashF bits)
        = some (Interned.from_value tid hashF bits s).1 ∧
    Static.hash_code (Interned.from_value tid hashF bits s).1 = hashF bits := by
  cases hm : entryAt s.interned tid (hashF bits) with
  | some e =>
    rw [from_value_hit hm]
    constructor
    · show entryAt (setBucket tid (getBucket tid s.interned) s.interned) tid (hashF bits)
        = some e
      rw [entryAt_ensure]
      exact hm
    · exact tableWf_entryAt hwf hm
  | none =>
    rw [from_value_miss hm]
    constructor
    · exact entryAt_insert_self tid (hashF bits) (Static.value s.nextAddr (hashF bits))
        (getBucket tid s.interned) s.interned
    · rfl

/-- C1: interning is idempotent with stable identity. Interning a value whose
hash is not yet in the type's bucket, then interning an equal value again (the
`DefaultHasher` model `hashF` is a function, so equal values hash equally, and
no manual hash is supplied on this path), yields the very same record — hence
equal `as_ptr` payload addresses — and `num_interned` for the type grows by
exactly 1 on the first call and by 0 on the repeat. -/
theorem c1_intern_idempotent (tid : Nat) (hashF : Nat → Nat) (bits : Nat) (s : St)
    (habs : entryAt s.interned tid (hashF bits) = none) :
    (Interned.from_value tid hashF bits (Interned.from_value tid hashF bits s).2).1
        = (Interned.from_value tid hashF bits s).1 ∧
    Static.as_ptr (Interned.from_value tid hashF bits (Interned.from_value tid hashF bits s).2).1
        = Static.as_ptr (Interned.from_value tid hashF bits s).1 ∧
    (num_interned tid (Interned.from_value tid hashF bits s).2).1
        = (num_interned tid s).1 + 1 ∧
    (num_interned tid (Interned.from_value tid hashF bits (Interned.from_value tid hashF bits s).2).2).1
        = (num_interned tid (Interned.from_value tid hashF bits s).2).1 := by
  have e1 := from_value_miss habs
  rw [e1]
  have h2 : entryAt (St.mk ((s.nextAddr, HeapData.value bits) :: s.heap) (s.nextAddr + 1)
      (setBucket tid ((hashF bits, Static.value s.nextAddr (hashF bits)) :: getBucket tid s.interned) s.interned)
      s.memoized).interned tid (hashF bits)
      = some (Static.value s.nextAddr (hashF bits)) :=
    entryAt_insert_self tid (hashF bits) (Static.value s.nextAddr (hashF bits))
      (getBucket tid s.interned) s.interned
  rw [from_value_hit h2]
  refine ⟨rfl, rfl, ?_, ?_⟩
  · show (num_interned tid (St.mk ((s.nextAddr, HeapData.value bits) :: s.heap) (s.nextAddr + 1)
      (setBucket tid ((hashF bits, Static.value s.nextAddr (hashF bits)) :: getBucket tid s.interned) s.interned)
      s.memoized)).1 = (num_interned tid s).1 + 1
    simp [num_interned, getBucket_set_self]
  · simp [num_interned, getBucket_ensure]

/-- C1 witness: Scenario A, interning the value 32 twice on a fresh context. -/
theorem c1_intern_idempotent_witness :
    entryAt St.empty.interned 0 ((fun n => n) 32) = none ∧
    ((Interned.from_value 0 (fun n => n) 32 (Interned.from_value 0 (fun n => n) 32 St.empty).2).1
        = (Interned.from_value 0 (fun n => n) 32 St.empty).1 ∧
    Static.as_ptr (Interned.from_value 0 (fun n => n) 32 (Interned.from_value 0 (fun n => n) 32 St.empty).2).1
        = Static.as_ptr (Interned.from_value 0 (fun n => n) 32 St.empty).1 ∧
    (num_interned 0 (Interned.from_value 0 (fun n => n) 32 St.empty).2).1
        = (num_interned 0 St.empty).1 + 1 ∧
    (num_interned 0 (Interned.from_value 0 (fun n => n) 32 (Interned.from_value 0 (fun n => n) 32 St.empty).2).2).1
        = (num_interned 0 (Interned.from_value 0 (fun n => n) 32 St.empty).2).1) :=
  ⟨by decide, c1_intern_idempotent 0 (fun n => n) 32 St.empty (by decide)⟩

theorem tableWf_nil : TableWf [] := fun e he => absurd he (List.not_mem_nil e)

theorem heapWf_nil : HeapWf St.empty := fun e he => absurd he (List.not_mem_nil e)

theorem memoize_miss_result {tid : Nat} {hashF : Nat → Nat} {combine : Nat → Nat → Nat → Nat}
    {scopeH inputH : Nat} {gen : Nat → Nat} {input : Nat} {s : St}
    (h : entryAt s.memoized tid (combine inputH scopeH tid) = none) :
    (Memoized.memoize tid hashF combine scopeH inputH gen input s).1 =
      (Interned.from_static tid
        (Interned.from_value tid hashF (gen input)
          { s with memoized := setBucket tid (getBucket tid s.memoized) s.memoized }).1
        { (Interned.from_value tid hashF (gen input)
            { s with memoized := setBucket tid (getBucket tid s.memoized) s.memoized }).2 with
          memoized := setBucket tid
            ((combine inputH scopeH tid,
              (Interned.from_value tid hashF (gen input)
                { s with memoized := setBucket tid (getBucket tid s.memoized) s.memoized }).1)
              :: getBucket tid s.memoized)
            (Interned.from_value tid hashF (gen input)
              { s with memoized := setBucket tid (getBucket tid s.memoized) s.memoized }).2.memoized }).1 := by
  have h' : alookup (combine inputH scopeH tid) (getBucket tid s.memoized) = none := h
  simp only [Memoized.memoize, h']

theorem memoize_miss_count {tid : Nat} {hashF : Nat → Nat} {combine : Nat → Nat → Nat → Nat}
    {scopeH inputH : Nat} {gen : Nat → Nat} {input : Nat} {s : St}
    (h : entryAt s.memoized tid (combine inputH scopeH tid) = none) :
    (Memoized.memoize tid hashF combine scopeH inputH gen input s).2.2 = 1 := by
  have h' : alookup (combine inputH scopeH tid) (getBucket tid s.memoized) = none := h
  simp only [Memoized.memoize, h']

theorem memoize_hit_count {tid : Nat} {hashF : Nat → Nat} {combine : Nat → Nat → Nat → Nat}
    {scopeH inputH : Nat} {gen : Nat → Nat} {input : Nat} {e : Static} {s : St}
    (h : entryAt s.memoized tid (combine inputH scopeH tid) = some e) :
    (Memoized.memoize tid hashF combine scopeH inputH gen input s).2.2 = 0 := by
  have h' : alookup (combine inputH scopeH tid) (getBucket tid s.memoized) = some e := h
  simp only [Memoized.memoize, h']

/-- C10: every handle returned by `Memoized::from` is canonical — whether the
memo table hit or missed, the returned record is exactly the record the
canonical `INTERNED` store holds for that type under the record's own hash
code, because the memo result is re-passed through the store's
lookup-or-insert (`value_static.into()`) before being wrapped. -/
theorem c10_memoized_canonical (tid : Nat) (hashF : Nat → Nat)
    (combine : Nat → Nat → Nat → Nat) (scopeH inputH : Nat) (gen : Nat → Nat)
    (input : Nat) (s : St) (hwf : TableWf s.interned) :
    entryAt (Memoized.memoize tid hashF combine scopeH inputH gen input s).2.1.interned tid
        (Static.hash_code (Memoized.memoize tid hashF combine scopeH inputH gen input s).1)
      = some (Memoized.memoize tid hashF combine scopeH inputH gen input s).1 := by
  cases hm : entryAt s.memoized tid (combine inputH scopeH tid) with
  | some e =>
    rw [memoize_hit hm]
    exact from_static_canonical tid e
      { s with memoized := setBucket tid (getBucket tid s.memoized) s.memoized } hwf
  | none =>
    rw [memoize_miss_state hm, memoize_miss_result hm]
    exact from_static_canonical tid
      (Interned.from_value tid hashF (gen input)
        { s with memoized := setBucket tid (getBucket tid s.memoized) s.memoized }).1
      { (Interned.from_value tid hashF (gen input)
          { s with memoized := setBucket tid (getBucket tid s.memoized) s.memoized }).2 with
        memoized := setBucket tid
          ((combine inputH scopeH tid,
            (Interned.from_value tid hashF (gen input)
              { s with memoized := setBucket tid (getBucket tid s.memoized) s.memoized }).1)
            :: getBucket tid s.memoized)
          (Interned.from_value tid hashF (gen input)
            { s with memoized := setBucket tid (getBucket tid s.memoized) s.memoized }).2.memoized }
      (from_value_wf tid hashF (gen input)
        { s with memoized := setBucket tid (getBucket tid s.memoized) s.memoized } hwf)

/-- C10 witness: a concrete memoize call on a fresh context is canonical. -/
theorem c10_memoized_canonical_witness :
    TableWf St.empty.interned ∧
    entryAt (Memoized.memoize 0 (fun n => n + 7) (fun i sc t => i + sc + t) 1 2
        (fun n => n * 3) 5 St.empty).2.1.interned 0
        (Static.hash_code (Memoized.memoize 0 (fun n => n + 7) (fun i sc t => i + sc + t) 1 2
          (fun n => n * 3) 5 St.empty).1)
      = some (Memoized.memoize 0 (fun n => n + 7) (fun i sc t => i + sc + t) 1 2
          (fun n => n * 3) 5 St.empty).1 :=
  ⟨tableWf_nil, c10_memoized_canonical 0 (fun n => n + 7) (fun i sc t => i + sc + t) 1 2
    (fun n => n * 3) 5 St.empty tableWf_nil⟩

/-- C2: memoization exactness. With the memo key (the combined hash of input,
scope and type id) not yet present, the first `Memoized::from` call runs the
generator exactly once; every later call with the same scope, input and result
type — after arbitrary further store operations — runs the generator zero
times and returns a handle wrapping the very same record as the first call. -/
theorem c2_memoization_exactness (tid : Nat) (hashF : Nat → Nat)
    (combine : Nat → Nat → Nat → Nat) (scopeH inputH : Nat) (gen : Nat → Nat)
    (input : Nat) (s : St) (hwf : TableWf s.interned)
    (habs : entryAt s.memoized tid (combine inputH scopeH tid) = none) :
    (Memoized.memoize tid hashF combine scopeH inputH gen input s).2.2 = 1 ∧
    ∀ ops : List Op,
      (Memoized.memoize tid hashF combine scopeH inputH gen input
          (run ops (Memoized.memoize tid hashF combine scopeH inputH gen input s).2.1)).2.2 = 0 ∧
      (Memoized.memoize tid hashF combine scopeH inputH gen input
          (run ops (Memoized.memoize tid hashF combine scopeH inputH gen input s).2.1)).1
        = (Memoized.memoize tid hashF combine scopeH inputH gen input s).1 := by
  refine ⟨memoize_miss_count habs, ?_⟩
  rw [memoize_miss_state habs, memoize_miss_result habs]
  set s1 : St := { s with memoized := setBucket tid (getBucket tid s.memoized) s.memoized }
    with hs1
  set A := Interned.from_value tid hashF (gen input) s1 with hA
  set S3 : St := { A.2 with memoized := setBucket tid ((combine inputH scopeH tid, A.1) :: getBucket tid s.memoized) A.2.memoized }
    with hS3
  have hwf1 : TableWf s1.interned := hwf
  have hcan := from_value_canonical tid hashF (gen input) s1 hwf1
  have hb : entryAt S3.interned tid (Static.hash_code A.1) = some A.1 := by
    rw [hS3]
    show entryAt A.2.interned tid (Static.hash_code A.1) = some A.1
    rw [hcan.2]
    exact hcan.1
  have eR := from_static_hit hb
  rw [eR]
  set T : St := { S3 with interned := setBucket tid (getBucket tid S3.interned) S3.interned }
    with hT
  have hmem : entryAt T.memoized tid (combine inputH scopeH tid) = some A.1 := by
    rw [hT]
    show entryAt S3.memoized tid (combine inputH scopeH tid) = some A.1
    rw [hS3]
    show entryAt (setBucket tid ((combine inputH scopeH tid, A.1) :: getBucket tid s.memoized)
      A.2.memoized) tid (combine inputH scopeH tid) = some A.1
    rw [entryAt_set_self]
    exact alookup_cons_self _ _ _
  have hbT : entryAt T.interned tid (Static.hash_code A.1) = some A.1 := by
    rw [hT]
    show entryAt (setBucket tid (getBucket tid S3.interned) S3.interned) tid
      (Static.hash_code A.1) = some A.1
    rw [entryAt_ensure]
    exact hb
  intro ops
  have hpre := run_evol ops T
  have hmem2 : entryAt (run ops T).memoized tid (combine inputH scopeH tid) = some A.1 :=
    hpre.2.1 tid (combine inputH scopeH tid) A.1 hmem
  have hb2 : entryAt (run ops T).interned tid (Static.hash_code A.1) = some A.1 :=
    hpre.1.1 tid (Static.hash_code A.1) A.1 hbT
  refine ⟨memoize_hit_count hmem2, ?_⟩
  rw [memoize_hit hmem2]
  have hb3 : entryAt ({ run ops T with memoized := setBucket tid (getBucket tid (run ops T).memoized) (run ops T).memoized } : St).interned
      tid (Static.hash_code A.1) = some A.1 := by
    show entryAt (run ops T).interned tid (Static.hash_code A.1) = some A.1
    exact hb2
  rw [from_static_hit hb3]

/-- C2 witness: Scenario C shape — memoize once on a fresh context, intern an
unrelated value, then memoize again with the same scope and input: the
generator runs once, then zero times, with equal handles. -/
theorem c2_memoization_exactness_witness :
    TableWf St.empty.interned ∧
    entryAt St.empty.memoized 0 ((fun i sc t => i + sc + t) 2 1 0) = none ∧
    ((Memoized.memoize 0 (fun n => n + 7) (fun i sc t => i + sc + t) 1 2 (fun n => n * 3) 5
        St.empty).2.2 = 1 ∧
    (Memoized.memoize 0 (fun n => n + 7) (fun i sc t => i + sc + t) 1 2 (fun n => n * 3) 5
        (run [Op.internV 0 (fun n => n) 9]
          (Memoized.memoize 0 (fun n => n + 7) (fun i sc t => i + sc + t) 1 2 (fun n => n * 3) 5
            St.empty).2.1)).2.2 = 0 ∧
    (Memoized.memoize 0 (fun n => n + 7) (fun i sc t => i + sc + t) 1 2 (fun n => n * 3) 5
        (run [Op.internV 0 (fun n => n) 9]
          (Memoized.memoize 0 (fun n => n + 7) (fun i sc t => i + sc + t) 1 2 (fun n => n * 3) 5
            St.empty).2.1)).1
      = (Memoized.memoize 0 (fun n => n + 7) (fun i sc t => i + sc + t) 1 2 (fun n => n * 3) 5
          St.empty).1) :=
  ⟨tableWf_nil, by decide,
    (c2_memoization_exactness 0 (fun n => n + 7) (fun i sc t => i + sc + t) 1 2 (fun n => n * 3)
      5 St.empty tableWf_nil (by decide)).1,
    ((c2_memoization_exactness 0 (fun n => n + 7) (fun i sc t => i + sc + t) 1 2 (fun n => n * 3)
      5 St.empty tableWf_nil (by decide)).2 [Op.internV 0 (fun n => n) 9]).1,
    ((c2_memoization_exactness 0 (fun n => n + 7) (fun i sc t => i + sc + t) 1 2 (fun n => n * 3)
      5 St.empty tableWf_nil (by decide)).2 [Op.internV 0 (fun n => n) 9]).2⟩

theorem from_static_fst_of_mem {tid : Nat} {v e : Static} {s : St}
    (h : entryAt s.interned tid v.hash_code = some e) :
    (Interned.from_static tid v s).1 = e := by
  rw [from_static_hit h]

/-- C3: cross-input sharing. Two memoize calls with different memo keys
(different (scope, input) pairs, no key collision) whose generators produce the
same output value each run their generator once, and both resolve to the same
canonical record, so the returned handles have equal `as_ptr` raw identity. -/
theorem c3_cross_input_sharing (tid : Nat) (hashF : Nat → Nat)
    (combine : Nat → Nat → Nat → Nat) (sc1 i1 sc2 i2 : Nat) (gen1 gen2 : Nat → Nat)
    (in1 in2 : Nat) (s : St) (hwf : TableWf s.interned)
    (habs1 : entryAt s.memoized tid (combine i1 sc1 tid) = none)
    (habs2 : entryAt s.memoized tid (combine i2 sc2 tid) = none)
    (hkeys : combine i1 sc1 tid ≠ combine i2 sc2 tid)
    (hout : gen1 in1 = gen2 in2) :
    (Memoized.memoize tid hashF combine sc1 i1 gen1 in1 s).2.2 = 1 ∧
    (Memoized.memoize tid hashF combine sc2 i2 gen2 in2
        (Memoized.memoize tid hashF combine sc1 i1 gen1 in1 s).2.1).2.2 = 1 ∧
    (Memoized.memoize tid hashF combine sc2 i2 gen2 in2
        (Memoized.memoize tid hashF combine sc1 i1 gen1 in1 s).2.1).1
      = (Memoized.memoize tid hashF combine sc1 i1 gen1 in1 s).1 ∧
    Static.as_ptr (Memoized.memoize tid hashF combine sc2 i2 gen2 in2
        (Memoized.memoize tid hashF combine sc1 i1 gen1 in1 s).2.1).1
      = Static.as_ptr (Memoized.memoize tid hashF combine sc1 i1 gen1 in1 s).1 := by
  refine ⟨memoize_miss_count habs1, ?_⟩
  rw [memoize_miss_state habs1, memoize_miss_result habs1]
  set s1 : St := { s with memoized := setBucket tid (getBucket tid s.memoized) s.memoized }
    with hs1
  set A := Interned.from_value tid hashF (gen1 in1) s1 with hA
  set S3 : St := { A.2 with memoized := setBucket tid ((combine i1 sc1 tid, A.1) :: getBucket tid s.memoized) A.2.memoized }
    with hS3
  have hwf1 : TableWf s1.interned := hwf
  have hcan := from_value_canonical tid hashF (gen1 in1) s1 hwf1
  have hb : entryAt S3.interned tid (Static.hash_code A.1) = some A.1 := by
    rw [hS3]
    show entryAt A.2.interned tid (Static.hash_code A.1) = some A.1
    rw [hcan.2]
    exact hcan.1
  have eR := from_static_hit hb
  rw [eR]
  set T : St := { S3 with interned := setBucket tid (getBucket tid S3.interned) S3.interned }
    with hT
  have hmiss2 : entryAt T.memoized tid (combine i2 sc2 tid) = none := by
    rw [hT]
    show entryAt S3.memoized tid (combine i2 sc2 tid) = none
    rw [hS3]
    show entryAt (setBucket tid ((combine i1 sc1 tid, A.1) :: getBucket tid s.memoized)
      A.2.memoized) tid (combine i2 sc2 tid) = none
    rw [entryAt_set_self, alookup_cons_ne _ _ hkeys]
    exact habs2
  show (Memoized.memoize tid hashF combine sc2 i2 gen2 in2 T).2.2 = 1 ∧
    (Memoized.memoize tid hashF combine sc2 i2 gen2 in2 T).1 = A.1 ∧
    Static.as_ptr (Memoized.memoize tid hashF combine sc2 i2 gen2 in2 T).1
      = Static.as_ptr A.1
  have hm2res : (Memoized.memoize tid hashF combine sc2 i2 gen2 in2 T).1 = A.1 := by
    rw [memoize_miss_result hmiss2]
    have hhit2 : entryAt ({ T with memoized := setBucket tid (getBucket tid T.memoized) T.memoized } : St).interned
        tid (hashF (gen2 in2)) = some A.1 := by
      show entryAt T.interned tid (hashF (gen2 in2)) = some A.1
      rw [← hout, hT]
      show entryAt (setBucket tid (getBucket tid S3.interned) S3.interned) tid
        (hashF (gen1 in1)) = some A.1
      rw [entryAt_ensure, hS3]
      show entryAt A.2.interned tid (hashF (gen1 in1)) = some A.1
      exact hcan.1
    rw [from_value_hit hhit2]
    apply from_static_fst_of_mem
    show entryAt (setBucket tid (getBucket tid T.interned) T.interned) tid
      (Static.hash_code A.1) = some A.1
    rw [entryAt_ensure, hcan.2, hT]
    show entryAt (setBucket tid (getBucket tid S3.interned) S3.interned) tid
      (hashF (gen1 in1)) = some A.1
    rw [entryAt_ensure, hS3]
    show entryAt A.2.interned tid (hashF (gen1 in1)) = some A.1
    exact hcan.1
  exact ⟨memoize_miss_count hmiss2, hm2res, congrArg Static.as_ptr hm2res⟩

/-- C3 witness: two memoize calls with different scopes whose generators agree
on their inputs share one canonical record on a fresh context. -/
theorem c3_cross_input_sharing_witness :
    TableWf St.empty.interned ∧
    entryAt St.empty.memoized 0 ((fun i sc t => 2 * i + 3 * sc + t) 4 1 0) = none ∧
    entryAt St.empty.memoized 0 ((fun i sc t => 2 * i + 3 * sc + t) 4 2 0) = none ∧
    ((fun i sc t => 2 * i + 3 * sc + t) 4 1 0 ≠ (fun i sc t => 2 * i + 3 * sc + t) 4 2 0) ∧
    ((fun n => n + 10) 4 = (fun n => n + 5) 9) ∧
    ((Memoized.memoize 0 (fun n => n) (fun i sc t => 2 * i + 3 * sc + t) 1 4 (fun n => n + 10) 4
        St.empty).2.2 = 1 ∧
    (Memoized.memoize 0 (fun n => n) (fun i sc t => 2 * i + 3 * sc + t) 2 4 (fun n => n + 5) 9
        (Memoized.memoize 0 (fun n => n) (fun i sc t => 2 * i + 3 * sc + t) 1 4 (fun n => n + 10) 4
          St.empty).2.1).2.2 = 1 ∧
    (Memoized.memoize 0 (fun n => n) (fun i sc t => 2 * i + 3 * sc + t) 2 4 (fun n => n + 5) 9
        (Memoized.memoize 0 (fun n => n) (fun i sc t => 2 * i + 3 * sc + t) 1 4 (fun n => n + 10) 4
          St.empty).2.1).1
      = (Memoized.memoize 0 (fun n => n) (fun i sc t => 2 * i + 3 * sc + t) 1 4 (fun n => n + 10) 4
          St.empty).1 ∧
    Static.as_ptr (Memoized.memoize 0 (fun n => n) (fun i sc t => 2 * i + 3 * sc + t) 2 4 (fun n => n + 5) 9
        (Memoized.memoize 0 (fun n => n) (fun i sc t => 2 * i + 3 * sc + t) 1 4 (fun n => n + 10) 4
          St.empty).2.1).1
      = Static.as_ptr (Memoized.memoize 0 (fun n => n) (fun i sc t => 2 * i + 3 * sc + t) 1 4 (fun n => n + 10) 4
          St.empty).1) :=
  ⟨tableWf_nil, by decide, by decide, by decide, by decide,
    c3_cross_input_sharing 0 (fun n => n) (fun i sc t => 2 * i + 3 * sc + t) 1 4 2 4
      (fun n => n + 10) (fun n => n + 5) 4 9 St.empty tableWf_nil (by decide) (by decide)
      (by decide) (by decide)⟩

/-- Interning a value under a manually supplied hash: build the record with
`StaticValue::with_hash(value, Some(hash))` (the caller-supplied-hash escape
hatch) and pass it through `From<Static> for Interned<T>`. -/
def internValueWithHash (tid : Nat) (hashF : Nat → Nat) (bits h : Nat) (s : St) :
    Static × St :=
  Interned.from_static tid (StaticValue.with_hash hashF bits (some h) s).1
    (StaticValue.with_hash hashF bits (some h) s).2

/-- C5: first-writer-wins bucket invariant. (1) An insert whose hash already
has a record returns that record unconditionally and changes no table entry.
(2) Two different values interned under the same manually supplied hash (the
escape hatch), with that hash initially absent, resolve to the single record
created by the first call. (3) Every `From<Static>` insert preserves bucket
well-formedness, whose `Nodup` clause is exactly "at most one record per hash
per bucket". -/
theorem c5_first_writer_wins (tid : Nat) (s : St) :
    (∀ v e, entryAt s.interned tid v.hash_code = some e →
      (Interned.from_static tid v s).1 = e ∧
      ∀ q hq, entryAt (Interned.from_static tid v s).2.interned q hq
        = entryAt s.interned q hq) ∧
    (∀ hashF b1 b2 h, entryAt s.interned tid h = none →
      (internValueWithHash tid hashF b2 h (internValueWithHash tid hashF b1 h s).2).1
          = (internValueWithHash tid hashF b1 h s).1 ∧
      (internValueWithHash tid hashF b1 h s).1
          = Static.value s.nextAddr h) ∧
    (∀ v, TableWf s.interned → TableWf (Interned.from_static tid v s).2.interned) := by
  refine ⟨?_, ?_, fun v hwf => from_static_wf tid v s hwf⟩
  · intro v e hv
    rw [from_static_hit hv]
    exact ⟨rfl, fun q hq => entryAt_ensure tid q s.interned hq⟩
  · intro hashF b1 b2 h habs
    set q1 := StaticValue.with_hash hashF b1 (some h) s with hq1
    have habs1 : entryAt q1.2.interned tid (Static.hash_code q1.1) = none := habs
    have e1 := from_static_miss habs1
    show (internValueWithHash tid hashF b2 h (Interned.from_static tid q1.1 q1.2).2).1
        = (Interned.from_static tid q1.1 q1.2).1 ∧
      (Interned.from_static tid q1.1 q1.2).1 = Static.value s.nextAddr h
    rw [e1]
    set P1 : St := { q1.2 with interned := setBucket tid ((Static.hash_code q1.1, q1.1) :: getBucket tid q1.2.interned) q1.2.interned }
      with hP1
    show (Interned.from_static tid (StaticValue.with_hash hashF b2 (some h) P1).1
        (StaticValue.with_hash hashF b2 (some h) P1).2).1 = q1.1 ∧
      q1.1 = Static.value s.nextAddr h
    have hh2 : entryAt (StaticValue.with_hash hashF b2 (some h) P1).2.interned tid
        (Static.hash_code (StaticValue.with_hash hashF b2 (some h) P1).1) = some q1.1 := by
      show entryAt P1.interned tid h = some q1.1
      rw [hP1]
      show entryAt (setBucket tid ((Static.hash_code q1.1, q1.1) :: getBucket tid q1.2.interned)
        q1.2.interned) tid h = some q1.1
      exact entryAt_insert_self tid (Static.hash_code q1.1) q1.1
        (getBucket tid q1.2.interned) q1.2.interned
    exact ⟨from_static_fst_of_mem hh2, rfl⟩

/-- C5 witness: hash 42 manually supplied for the distinct values 1 and 2 on a
fresh context; both resolve to the record created by the first call. -/
theorem c5_first_writer_wins_witness :
    entryAt St.empty.interned 0 42 = none ∧
    ((internValueWithHash 0 (fun n => n) 2 42 (internValueWithHash 0 (fun n => n) 1 42 St.empty).2).1
        = (internValueWithHash 0 (fun n => n) 1 42 St.empty).1 ∧
      (internValueWithHash 0 (fun n => n) 1 42 St.empty).1 = Static.value St.empty.nextAddr 42) :=
  ⟨by decide, (c5_first_writer_wins 0 St.empty).2.1 (fun n => n) 1 2 42 (by decide)⟩

theorem as_slice_lookup {p h : Nat} {st : St} {l : List Nat}
    (hl : alookup p st.heap = some (HeapData.slice l)) :
    Static.as_slice (Static.slice p h) st = some l := by
  simp [Static.as_slice, hl]

theorem as_value_lookup {p h : Nat} {st : St} {bits : Nat}
    (hl : alookup p st.heap = some (HeapData.value bits)) :
    Static.as_value (Static.value p h) st = some bits := by
  simp [Static.as_value, hl]

theorem as_str_lookup {p h : Nat} {st : St} {text : String}
    (hl : alookup p st.heap = some (HeapData.str text)) :
    Static.as_str (Static.str p h) st = some text := by
  simp [Static.as_str, hl]

/-- C6: the store copies rather than aliases caller memory. Interning a slice
copies its bits into a fresh store-owned heap cell, so reading the interned
slice back yields the element sequence as it was at intern time, and that
readback is unchanged by every later store operation (the caller's own buffer
is a value outside the store, so mutating it cannot touch the copied cell);
interning a slice with different content and different hash yields a handle
that is not equal to the first. -/
theorem c6_copy_not_alias (tid : Nat) (hashS : List Nat → Nat) (l l2 : List Nat)
    (s : St) (hwf : HeapWf s)
    (habs1 : entryAt s.interned tid (hashS l) = none)
    (habs2 : entryAt s.interned tid (hashS l2) = none)
    (hne : hashS l2 ≠ hashS l) :
    Static.as_slice (Interned.from_slice tid hashS l s).1
        (Interned.from_slice tid hashS l s).2 = some l ∧
    Static.as_slice (Interned.from_slice tid hashS l s).1
        (Interned.from_slice tid hashS l2 (Interned.from_slice tid hashS l s).2).2 = some l ∧
    (∀ ops : List Op, Static.as_slice (Interned.from_slice tid hashS l s).1
        (run ops (Interned.from_slice tid hashS l2 (Interned.from_slice tid hashS l s).2).2)
      = some l) ∧
    Static.as_slice (Interned.from_slice tid hashS l2 (Interned.from_slice tid hashS l s).2).1
        (Interned.from_slice tid hashS l2 (Interned.from_slice tid hashS l s).2).2 = some l2 ∧
    Static._partial_eq (Interned.from_slice tid hashS l2 (Interned.from_slice tid hashS l s).2).1
        (Interned.from_slice tid hashS l s).1 = false := by
  have e1 := from_slice_miss habs1
  rw [e1]
  set S1 : St := { heap := (s.nextAddr, HeapData.slice l) :: s.heap, nextAddr := s.nextAddr + 1, interned := setBucket tid ((hashS l, Static.slice s.nextAddr (hashS l)) :: getBucket tid s.interned) s.interned, memoized := s.memoized }
    with hS1
  have habs2b : entryAt S1.interned tid (hashS l2) = none := by
    rw [hS1]
    show entryAt (setBucket tid ((hashS l, Static.slice s.nextAddr (hashS l))
      :: getBucket tid s.interned) s.interned) tid (hashS l2) = none
    rw [entryAt_set_self, alookup_cons_ne _ _ (Ne.symm hne)]
    exact habs2
  have e2 := from_slice_miss habs2b
  rw [e2]
  set S2 : St := { heap := (S1.nextAddr, HeapData.slice l2) :: S1.heap, nextAddr := S1.nextAddr + 1, interned := setBucket tid ((hashS l2, Static.slice S1.nextAddr (hashS l2)) :: getBucket tid S1.interned) S1.interned, memoized := S1.memoized }
    with hS2
  have hl1 : alookup s.nextAddr S1.heap = some (HeapData.slice l) := by
    rw [hS1]
    exact alookup_cons_self _ _ _
  have hna : S1.nextAddr = s.nextAddr + 1 := by
    rw [hS1]
  have hl2 : alookup s.nextAddr S2.heap = some (HeapData.slice l) := by
    rw [hS2]
    show alookup s.nextAddr ((S1.nextAddr, HeapData.slice l2) :: S1.heap)
      = some (HeapData.slice l)
    rw [alookup_cons_ne _ _ (by omega)]
    exact hl1
  have hwf1 : HeapWf S1 := by
    rw [hS1]
    intro e he
    exact heapWf_cons _ hwf e he
  have hwf2 : HeapWf S2 := by
    rw [hS2]
    intro e he
    exact heapWf_cons (HeapData.slice l2) hwf1 e he
  refine ⟨as_slice_lookup hl1, as_slice_lookup hl2, ?_, ?_, ?_⟩
  · intro ops
    have hp := (run_heap ops S2 hwf2).1
    exact as_slice_lookup (hp s.nextAddr (HeapData.slice l) hl2)
  · apply as_slice_lookup
    rw [hS2]
    exact alookup_cons_self _ _ _
  · simp [Static._partial_eq, Static.hash_code, hne]

/-- C6 witness: Scenario D — intern [1,2,3,4,5], intern [4,1,7], read back. -/
theorem c6_copy_not_alias_witness :
    HeapWf St.empty ∧
    entryAt St.empty.interned 0 ((fun xs => List.sum xs) [1, 2, 3, 4, 5]) = none ∧
    entryAt St.empty.interned 0 ((fun xs => List.sum xs) [4, 1, 7]) = none ∧
    ((fun xs => List.sum xs) [4, 1, 7] ≠ (fun xs => List.sum xs) [1, 2, 3, 4, 5]) ∧
    (Static.as_slice (Interned.from_slice 0 (fun xs => List.sum xs) [1, 2, 3, 4, 5] St.empty).1
        (Interned.from_slice 0 (fun xs => List.sum xs) [1, 2, 3, 4, 5] St.empty).2
      = some [1, 2, 3, 4, 5] ∧
    Static.as_slice (Interned.from_slice 0 (fun xs => List.sum xs) [1, 2, 3, 4, 5] St.empty).1
        (Interned.from_slice 0 (fun xs => List.sum xs) [4, 1, 7]
          (Interned.from_slice 0 (fun xs => List.sum xs) [1, 2, 3, 4, 5] St.empty).2).2
      = some [1, 2, 3, 4, 5] ∧
    (∀ ops : List Op, Static.as_slice
        (Interned.from_slice 0 (fun xs => List.sum xs) [1, 2, 3, 4, 5] St.empty).1
        (run ops (Interned.from_slice 0 (fun xs => List.sum xs) [4, 1, 7]
          (Interned.from_slice 0 (fun xs => List.sum xs) [1, 2, 3, 4, 5] St.empty).2).2)
      = some [1, 2, 3, 4, 5]) ∧
    Static.as_slice (Interned.from_slice 0 (fun xs => List.sum xs) [4, 1, 7]
          (Interned.from_slice 0 (fun xs => List.sum xs) [1, 2, 3, 4, 5] St.empty).2).1
        (Interned.from_slice 0 (fun xs => List.sum xs) [4, 1, 7]
          (Interned.from_slice 0 (fun xs => List.sum xs) [1, 2, 3, 4, 5] St.empty).2).2
      = some [4, 1, 7] ∧
    Static._partial_eq (Interned.from_slice 0 (fun xs => List.sum xs) [4, 1, 7]
          (Interned.from_slice 0 (fun xs => List.sum xs) [1, 2, 3, 4, 5] St.empty).2).1
        (Interned.from_slice 0 (fun xs => List.sum xs) [1, 2, 3, 4, 5] St.empty).1 = false) :=
  ⟨heapWf_nil, by decide, by decide, by decide,
    c6_copy_not_alias 0 (fun xs => List.sum xs) [1, 2, 3, 4, 5] [4, 1, 7] St.empty
      heapWf_nil (by decide) (by decide) (by decide)⟩

/-- C7: entries are never removed or replaced. Over every sequence of intern,
memoize and diagnostic-counter operations, a key that maps to a record in
either table still maps to that same record afterwards (absent-to-present
happens at most once, never present-to-absent), and `num_interned` and
`num_memoized` are non-decreasing for every type. -/
theorem c7_tables_monotone (ops : List Op) (s : St) :
    (∀ tid h v, entryAt s.interned tid h = some v →
      entryAt (run ops s).interned tid h = some v) ∧
    (∀ tid h v, entryAt s.memoized tid h = some v →
      entryAt (run ops s).memoized tid h = some v) ∧
    (∀ tid, (num_interned tid s).1 ≤ (num_interned tid (run ops s)).1) ∧
    (∀ tid, (num_memoized tid s).1 ≤ (num_memoized tid (run ops s)).1) := by
  have h := run_evol ops s
  exact ⟨h.1.1, h.2.1, fun tid => h.1.2 tid, fun tid => h.2.2 tid⟩

/-- C7 witness: an interned entry for value 5 survives a later intern of 9,
applying the monotonicity theorem at a concrete sequence. -/
theorem c7_tables_monotone_witness :
    entryAt (Interned.from_value 0 (fun n => n) 5 St.empty).2.interned 0 5
        = some (Static.value 0 5) ∧
    entryAt (run [Op.internV 0 (fun n => n) 9]
        (Interned.from_value 0 (fun n => n) 5 St.empty).2).interned 0 5
      = some (Static.value 0 5) :=
  ⟨by decide,
    (c7_tables_monotone [Op.internV 0 (fun n => n) 9]
      (Interned.from_value 0 (fun n => n) 5 St.empty).2).1 0 5 (Static.value 0 5) (by decide)⟩

/-- C8: shape-mismatch accessors fail loudly. `as_slice` panics (`none`) on
every record whose stored kind is not `Slice`, `as_value` on every record not
of kind `Value`, `as_str` on every record not of kind `Str`; when the shape
matches, each accessor returns exactly the payload the matching constructor
stored. The accessors are read-only, so the store is unchanged in all cases. -/
theorem c8_shape_mismatch :
    (∀ (st : St) (p h : Nat),
      Static.as_slice (Static.value p h) st = none ∧
      Static.as_slice (Static.str p h) st = none ∧
      Static.as_slice (Static.osStr p h) st = none ∧
      Static.as_slice (Static.path p h) st = none ∧
      Static.as_value (Static.slice p h) st = none ∧
      Static.as_value (Static.str p h) st = none ∧
      Static.as_value (Static.osStr p h) st = none ∧
      Static.as_value (Static.path p h) st = none ∧
      Static.as_str (Static.value p h) st = none ∧
      Static.as_str (Static.slice p h) st = none ∧
      Static.as_str (Static.osStr p h) st = none ∧
      Static.as_str (Static.path p h) st = none) ∧
    (∀ (hashF : Nat → Nat) (bits : Nat) (h : Option Nat) (s : St),
      Static.as_value (StaticValue.with_hash hashF bits h s).1
        (StaticValue.with_hash hashF bits h s).2 = some bits) ∧
    (∀ (hashF : List Nat → Nat) (elems : List Nat) (h : Option Nat) (s : St),
      Static.as_slice (StaticSlice.with_hash hashF elems h s).1
        (StaticSlice.with_hash hashF elems h s).2 = some elems) ∧
    (∀ (hashF : String → Nat) (text : String) (h : Option Nat) (s : St),
      Static.as_str (StaticStr.with_hash hashF text h s).1
        (StaticStr.with_hash hashF text h s).2 = some text) := by
  refine ⟨?_, ?_, ?_, ?_⟩
  · intro st p h
    exact ⟨rfl, rfl, rfl, rfl, rfl, rfl, rfl, rfl, rfl, rfl, rfl, rfl⟩
  · intro hashF bits h s
    exact as_value_lookup (alookup_cons_self _ _ _)
  · intro hashF elems h s
    exact as_slice_lookup (alookup_cons_self _ _ _)
  · intro hashF text h s
    exact as_str_lookup (alookup_cons_self _ _ _)

/-- C9: key-hash coherence of the interned store. The empty table is coherent;
every operation of the surface (intern of a value, slice, text or prepared
record, memoize, and the diagnostic counters) preserves coherence; and in a
coherent table every record found under key h has `hash_code` h. The bucket
itself sits under the type id used for the operation by construction of the
table (`entry(type_id)`), which the model keys the same way. -/
theorem c9_key_hash_coherence :
    TableWf St.empty.interned ∧
    (∀ (o : Op) (s : St), TableWf s.interned → TableWf (step o s).interned) ∧
    (∀ (s : St) (tid h : Nat) (v : Static), TableWf s.interned →
      entryAt s.interned tid h = some v → Static.hash_code v = h) :=
  ⟨tableWf_nil, fun o s hwf => step_wf o s hwf,
    fun _ _ _ _ hwf he => tableWf_entryAt hwf he⟩

/-- C9 witness: coherence after interning 5 then stepping an intern of 7, and
the coherence consequence read off a concrete entry. -/
theorem c9_key_hash_coherence_witness :
    TableWf (step (Op.internV 0 (fun n => n) 7)
        (Interned.from_value 0 (fun n => n) 5 St.empty).2).interned ∧
    Static.hash_code (Static.value 0 5) = 5 :=
  ⟨c9_key_hash_coherence.2.1 (Op.internV 0 (fun n => n) 7)
      (Interned.from_value 0 (fun n => n) 5 St.empty).2
      (from_value_wf 0 (fun n => n) 5 St.empty tableWf_nil),
    c9_key_hash_coherence.2.2 (Interned.from_value 0 (fun n => n) 5 St.empty).2 0 5
      (Static.value 0 5) (from_value_wf 0 (fun n => n) 5 St.empty tableWf_nil) (by decide)⟩

/-- C4 counterexample: ordering does NOT delegate to the stored hash codes.
Intern the value 1 under manual hash 5 and the value 2 under manual hash 3;
`Static::_cmp` dereferences and compares the payloads (1 against 2, giving
`lt`), while the hash codes compare the other way (5 against 3, giving `gt`).
So the claim that `cmp` is determined solely by the records' hash codes is
false on the code. -/
theorem c4_counterexample :
    Static._cmp (internValueWithHash 0 (fun n => n) 2 3
        (internValueWithHash 0 (fun n => n) 1 5 St.empty).2).2 0
        (internValueWithHash 0 (fun n => n) 1 5 St.empty).1
        (internValueWithHash 0 (fun n => n) 2 3
          (internValueWithHash 0 (fun n => n) 1 5 St.empty).2).1
      = some Ordering.lt ∧
    compare (Static.hash_code (internValueWithHash 0 (fun n => n) 1 5 St.empty).1)
        (Static.hash_code (internValueWithHash 0 (fun n => n) 2 3
          (internValueWithHash 0 (fun n => n) 1 5 St.empty).2).1)
      = Ordering.gt := by
  decide

/-- C4 amended: equality and hashing delegate entirely to the stored 64-bit
hash code — `_partial_eq` holds iff the hash codes are equal, and the data a
handle feeds to a hasher is exactly (type id, hash code), so equal hash codes
hash identically. Ordering, however, dereferences and compares the stored
payload contents whenever both records have the same storage kind, falling
back to comparing (type id, hash code) pairs — i.e. hash codes, the type ids
being equal — only when the kinds differ. -/
theorem c4_comparison_semantics (s : St) (tid : Nat) (a b : Static) :
    (Static._partial_eq a b = true ↔ Static.hash_code a = Static.hash_code b) ∧
    (Static.hash_code a = Static.hash_code b → Static._hash tid a = Static._hash tid b) ∧
    (∀ pa ha pb hb va vb, alookup pa s.heap = some (HeapData.value va) →
      alookup pb s.heap = some (HeapData.value vb) →
      Static._cmp s tid (Static.value pa ha) (Static.value pb hb) = some (compare va vb)) ∧
    (∀ pa ha pb hb, Static._cmp s tid (Static.value pa ha) (Static.slice pb hb)
      = some (compare ha hb)) := by
  refine ⟨?_, ?_, ?_, ?_⟩
  · simp [Static._partial_eq]
  · intro h
    simp [Static._hash, h]
  · intro pa ha pb hb va vb h1 h2
    simp [Static._cmp, h1, h2]
  · intro pa ha pb hb
    rfl

/-- C4 amended witness: a concrete two-cell heap exercising every part. -/
theorem c4_comparison_semantics_witness :
    (Static._partial_eq (Static.value 0 5) (Static.value 1 5) = true ↔
      Static.hash_code (Static.value 0 5) = Static.hash_code (Static.value 1 5)) ∧
    Static._hash 0 (Static.value 0 5) = Static._hash 0 (Static.value 1 5) ∧
    Static._cmp (St.mk [(0, HeapData.value 1), (1, HeapData.value 2)] 2 [] []) 0
        (Static.value 0 5) (Static.value 1 5) = some (compare 1 2) ∧
    Static._cmp (St.mk [(0, HeapData.value 1), (1, HeapData.value 2)] 2 [] []) 0
        (Static.value 0 5) (Static.slice 1 3) = some (compare 5 3) :=
  ⟨(c4_comparison_semantics (St.mk [(0, HeapData.value 1), (1, HeapData.value 2)] 2 [] [])
      0 (Static.value 0 5) (Static.value 1 5)).1,
   (c4_comparison_semantics (St.mk [(0, HeapData.value 1), (1, HeapData.value 2)] 2 [] [])
      0 (Static.value 0 5) (Static.value 1 5)).2.1 rfl,
   (c4_comparison_semantics (St.mk [(0, HeapData.value 1), (1, HeapData.value 2)] 2 [] [])
      0 (Static.value 0 5) (Static.value 1 5)).2.2.1 0 5 1 5 1 2 (by decide) (by decide),
   (c4_comparison_semantics (St.mk [(0, HeapData.value 1), (1, HeapData.value 2)] 2 [] [])
      0 (Static.value 0 5) (Static.value 1 5)).2.2.2 0 5 1 3⟩
